import Mathlib

/-!
Verification of the go-ctext repository: a C source scanner that separates
comment tokens from text tokens (package ctext, `Scanner.Next`), and a
macro-invocation extractor built on top of it (package cmacro,
`ScanInvocations`).  The scanner is embedded as a pure state machine over
`List Char`; the extractor as pure functions over the scanner's text tokens.
-/

namespace Ctext

/-- Token types produced by the scanner (`TokenType` in ctext.go). -/
inductive TokenType where
  | errorToken
  | commentToken
  | textToken
deriving DecidableEq, Repr

/-- Terminal conditions of the scanner: `io.EOF` or the
`unexpected end of multi-line comment` error. -/
inductive ScanError where
  | eofError
  | unterminatedComment
deriving DecidableEq, Repr

/-- Scanner state: remaining input (the buffered reader), the current
position `posCurr` (line/col), the most recent token's start position
(`Scanner.Position`), the token buffer `buf`, and the sticky error. -/
structure Scanner where
  input : List Char
  line : Int
  col : Int
  tokLine : Int
  tokCol : Int
  buf : List Char
  err : Option ScanError
deriving DecidableEq, Repr

/-- The body of the `for done := false; !done;` loop of `Scanner.Next`
(ctext.go).  Arguments after the input are: `posCurr.Line`, `posCurr.Column`,
`Position.Line`, `Position.Column` (0 meaning unset), the token buffer, and
the three per-call flags `inSLComment`, `mlCommentCount`, `inStringLiteral`.
Each iteration peeks one character and either returns a token or consumes
the character (appending it to `buf`, except for `\r` which is discarded). -/
def nextLoop : List Char → Int → Int → Int → Int → List Char → Bool → Nat → Bool →
    TokenType × Scanner
  | [], line, col, tokLine, tokCol, buf, _inSL, ml, _inStr =>
    if buf ≠ [] then
      if ml > 0 then
        (.errorToken, ⟨[], line, col, tokLine, tokCol, buf, some .unterminatedComment⟩)
      else (.textToken, ⟨[], line, col, tokLine, tokCol, buf, some .eofError⟩)
    else (.errorToken, ⟨[], line, col, tokLine, tokCol, buf, some .eofError⟩)
  | c :: rest, line, col, tokLine, tokCol, buf, inSL, ml, inStr =>
    let tl := if tokLine = 0 then line else tokLine
    let tc := if tokLine = 0 then (if col = 0 then 1 else col) else tokCol
    if c = '/' then
      if inSL = false ∧ ml = 0 then
        if inStr = false then
          if buf.getLast? = some '/' then
            nextLoop rest line (col + 1) line (col - 1) (buf ++ [c]) true ml inStr
          else if buf ≠ [] then
            (.textToken, ⟨c :: rest, line, col, tl, tc, buf, none⟩)
          else nextLoop rest line (col + 1) tl tc (buf ++ [c]) inSL ml inStr
        else nextLoop rest line (col + 1) tl tc (buf ++ [c]) inSL ml inStr
      else if ml > 0 then
        if buf.getLast? = some '*' then
          if ml = 1 then
            (.commentToken, ⟨rest, line, col + 1, tl, tc, buf ++ [c], none⟩)
          else nextLoop rest line (col + 1) tl tc (buf ++ [c]) inSL (ml - 1) inStr
        else nextLoop rest line (col + 1) tl tc (buf ++ [c]) inSL ml inStr
      else nextLoop rest line (col + 1) tl tc (buf ++ [c]) inSL ml inStr
    else if c = '*' then
      if buf.getLast? = some '/' then
        if ml = 0 then
          nextLoop rest line (col + 1) line (col - 1) (buf ++ [c]) inSL 1 inStr
        else nextLoop rest line (col + 1) tl tc (buf ++ [c]) inSL (ml + 1) inStr
      else nextLoop rest line (col + 1) tl tc (buf ++ [c]) inSL ml inStr
    else if c = '\r' then
      nextLoop rest line (col + 1) tl tc buf inSL ml inStr
    else if c = '\n' then
      if ml > 0 then
        nextLoop rest (line + 1) 1 tl tc (buf ++ [c]) inSL ml inStr
      else if inSL then
        (.commentToken, ⟨rest, line + 1, 1, tl, tc, buf ++ [c], none⟩)
      else nextLoop rest (line + 1) 1 tl tc (buf ++ [c]) inSL ml inStr
    else if c = '"' then
      if inSL = false ∧ ml = 0 then
        if buf ≠ [] ∧ buf.getLast? ≠ some '\\' then
          nextLoop rest line (col + 1) tl tc (buf ++ [c]) inSL ml (!inStr)
        else nextLoop rest line (col + 1) tl tc (buf ++ [c]) inSL ml inStr
      else nextLoop rest line (col + 1) tl tc (buf ++ [c]) inSL ml inStr
    else nextLoop rest line (col + 1) tl tc (buf ++ [c]) inSL ml inStr

/-- Model of `Scanner.Next`: returns the sticky error immediately if one exists,
otherwise resets the buffer, the token-start position and the per-call
flags and runs the scan loop. -/
def Next (s : Scanner) : TokenType × Scanner :=
  match s.err with
  | some _ => (.errorToken, s)
  | none => nextLoop s.input s.line s.col 0 0 [] false 0 false

/-- Model of `NewScanner`: initial state at line 1, column 1, empty buffer, no error. -/
def NewScanner (input : List Char) : Scanner :=
  ⟨input, 1, 1, 0, 0, [], none⟩

/-- A produced token: its type, the position reported by `Scanner.Position`
after `Next`, and its data (`Scanner.TokenText`). -/
structure Token where
  typ : TokenType
  line : Int
  col : Int
  Data : List Char
deriving DecidableEq, Repr

/-- Drive the scanner: call `Next` repeatedly, collecting every non-error
token, until an `ErrorToken` is returned (or the fuel runs out; fuel
`input.length + 1` always suffices since every token consumes at least one
character).  Returns the tokens in emission order and the final state. -/
def runScan : Nat → Scanner → List Token × Scanner
  | 0, s => ([], s)
  | fuel + 1, s =>
    let r := Next s
    if r.1 = .errorToken then ([], r.2)
    else
      let rest := runScan fuel r.2
      (⟨r.1, r.2.tokLine, r.2.tokCol, r.2.buf⟩ :: rest.1, rest.2)

/-- Scan a whole input from a fresh scanner with sufficient fuel. -/
def scanTokens (input : List Char) : List Token × Scanner :=
  runScan (input.length + 1) (NewScanner input)

/-- Input with all carriage returns removed, as the scanner strips them. -/
def crStrip (l : List Char) : List Char :=
  l.filter (fun c => c != '\r')

end Ctext

namespace CM

open Ctext

/-- An `Invocation` of a function-like macro (cmacro.go): name, start and
end lines, and the argument strings. -/
structure Invocation where
  Name : List Char
  Start : Int
  End : Int
  Args : List (List Char)
deriving DecidableEq, Repr

/-- Errors produced by `ScanInvocations`: the
`macro function missing opening parentheses` error, or a scanner error
other than end-of-input propagated through `Scanner.Err`. -/
inductive CErr where
  | missingOpenParen
  | scanErr (e : ScanError)
deriving DecidableEq, Repr

/-- ASCII word characters, as matched by the `\b` boundary of the compiled
name pattern (`compileNamesRegexp` builds `(\bNAME)|...`). -/
def isWordChar (c : Char) : Bool :=
  c.isAlphanum || c == '_'

/-- There is a `\b` word boundary just before position `i` of `s`. -/
def wordBoundary (s : List Char) (i : Nat) : Bool :=
  match i with
  | 0 => true
  | j + 1 =>
    match s.get? j with
    | some c => !isWordChar c
    | none => true

/-- Model of `re.FindStringIndex` for the alternation built by
`compileNamesRegexp`: the leftmost position where some target name occurs
preceded by a word boundary, together with the first (in list order) name
matching there.  Returns the match position and the matched name. -/
def findMatch (names : List (List Char)) (s : List Char) : Option (Nat × List Char) :=
  (List.range (s.length + 1)).findSome? fun i =>
    if wordBoundary s i then
      (names.find? fun n => n.isPrefixOf (s.drop i)).map fun n => (i, n)
    else none

/-- Whitespace characters trimmed by `strings.TrimSpace` (ASCII part). -/
def goIsSpace (c : Char) : Bool :=
  c == ' ' || c == '\t' || c == '\n' || c == '\x0B' || c == '\x0C' || c == '\r'

/-- Model of `strings.TrimSpace`: drop whitespace from both ends. -/
def trimSpace (l : List Char) : List Char :=
  ((l.dropWhile goIsSpace).reverse.dropWhile goIsSpace).reverse

/-- Model of `parseInvocationArg` (cmacro.go): trim the buffer; if the trimmed
argument is non-empty return it and reset the buffer, otherwise return no
argument and keep the buffer unchanged. -/
def parseInvocationArg (buf : List Char) : Option (List Char) × List Char :=
  let arg := trimSpace buf
  if arg ≠ [] then (some arg, []) else (none, buf)

/-- Flush the pending-argument buffer: append the parsed argument (trimmed
again, as `scanInvocationsTextToken` does) to the invocation's argument
list when `parseInvocationArg` reports one. -/
def flushArg (buf : List Char) (inv : Invocation) : List Char × Invocation :=
  match parseInvocationArg buf with
  | (some arg, buf') => (buf', { inv with Args := inv.Args ++ [trimSpace arg] })
  | (none, buf') => (buf', inv)

/-- The character-by-character argument parse of `scanInvocationsTextToken`
(the `for ; (i < len(s)) && !done; i++` loop), starting just after the
opening parenthesis.  State: current line, `inStringLiteral`, `parenCount`,
the pending-argument buffer, and the invocation under construction.
Returns the emitted invocation (if the terminating `;` was reached), the
updated line counter, and the characters remaining after the point where
the loop stopped (empty when the loop ran off the end of the token). -/
def scanArgsLoop : List Char → Int → Bool → Nat → List Char → Invocation →
    Option Invocation × Int × List Char
  | [], lineCurr, _inStr, _paren, _buf, _inv => (none, lineCurr, [])
  | c :: rest, lineCurr, inStr, paren, buf, inv =>
    if c = ' ' then
      if inStr || paren > 0 then
        scanArgsLoop rest lineCurr inStr paren (buf ++ [c]) inv
      else
        scanArgsLoop rest lineCurr inStr paren (flushArg buf inv).1 (flushArg buf inv).2
    else if c = ',' then
      if inStr || paren > 0 then
        scanArgsLoop rest lineCurr inStr paren (buf ++ [c]) inv
      else
        scanArgsLoop rest lineCurr inStr paren (flushArg buf inv).1 (flushArg buf inv).2
    else if c = '"' then
      if inStr then
        if buf.getLast? = some '\\' then
          scanArgsLoop rest lineCurr inStr paren (buf ++ [c]) inv
        else if paren = 0 then
          scanArgsLoop rest lineCurr false paren (flushArg (buf ++ [c]) inv).1
            (flushArg (buf ++ [c]) inv).2
        else
          scanArgsLoop rest lineCurr false paren (buf ++ [c]) inv
      else
        scanArgsLoop rest lineCurr true paren (buf ++ [c]) inv
    else if c = '(' then
      if inStr then
        scanArgsLoop rest lineCurr inStr paren (buf ++ [c]) inv
      else
        scanArgsLoop rest lineCurr inStr (paren + 1) (buf ++ [c]) inv
    else if c = ')' then
      if inStr then
        scanArgsLoop rest lineCurr inStr paren (buf ++ [c]) inv
      else if paren > 0 then
        if paren - 1 = 0 then
          scanArgsLoop rest lineCurr inStr (paren - 1) (flushArg (buf ++ [c]) inv).1
            (flushArg (buf ++ [c]) inv).2
        else
          scanArgsLoop rest lineCurr inStr (paren - 1) (buf ++ [c]) inv
      else
        scanArgsLoop rest lineCurr inStr paren (flushArg buf inv).1 (flushArg buf inv).2
    else if c = ';' then
      if inStr then
        scanArgsLoop rest lineCurr inStr paren (buf ++ [c]) inv
      else
        (some { inv with End := lineCurr }, lineCurr, rest)
    else if c = '\r' then
      scanArgsLoop rest lineCurr inStr paren buf inv
    else if c = '\n' then
      scanArgsLoop rest (lineCurr + 1) inStr paren buf inv
    else
      scanArgsLoop rest lineCurr inStr paren (buf ++ [c]) inv

/-- Go loop `for ; i >= 0; i-- { if s[i] != ' ' { break } }` of
`isMacroDefinition`: from index `i` walk left over spaces; result is the
index of the first non-space character, or `-1` if none. -/
def skipSpacesBack (s : List Char) : Nat → Int
  | 0 => if s.get? 0 = some ' ' then -1 else 0
  | i + 1 => if s.get? (i + 1) = some ' ' then skipSpacesBack s i else (i + 1 : Nat)

/-- Inner loop of `isMacroDefinition`: from index `j` walk left, skipping
spaces; true exactly when the first non-space character is `#`. -/
def hashBefore (s : List Char) : Nat → Bool
  | 0 => s.get? 0 = some '#'
  | j + 1 =>
    match s.get? (j + 1) with
    | some ' ' => hashBefore s j
    | some '#' => true
    | _ => false

/-- Model of `isMacroDefinition` (cmacro.go): the name occurrence at index `ni` is a
macro definition when, skipping spaces to its left, the preceding six
characters spell `define`, themselves preceded (skipping spaces) by `#`. -/
def isMacroDefinition (s : List Char) (ni : Nat) : Bool :=
  if ni ≥ 8 then
    let i := skipSpacesBack s (ni - 1)
    if i ≥ 6 then
      if (s.drop (i.toNat - 5)).take 6 = "define".toList then
        hashBefore s (i.toNat - 6)
      else false
    else false
  else false

/-- Outer loop of `scanInvocationsTextToken` (cmacro.go): find the next
occurrence of a target name, add the newlines before it to the running line
counter, skip it if it is a macro definition, otherwise find the opening
parenthesis (a hard error if absent) and run the argument parse; emitted
invocations are accumulated in order.  After an emission the search resumes
on the same string suffix that starts right after the matched name.  The
fuel bounds the number of iterations; `s.length + 1` suffices whenever no
target name is empty, since each iteration drops at least one character. -/
def scanInvocationsTextToken :
    Nat → List (List Char) → List Char → Int → List Invocation →
    List Invocation × Option CErr
  | 0, _, _, _, acc => (acc, none)
  | fuel + 1, names, s, lineCurr, acc =>
    match findMatch names s with
    | none => (acc, none)
    | some (ni, name) =>
      let lineCurr' := lineCurr + ((s.take ni).count '\n' : Int)
      let isDef := isMacroDefinition s ni
      let s' := s.drop (ni + name.length)
      if isDef then
        scanInvocationsTextToken fuel names s' lineCurr' acc
      else
        match (s'.findIdx? fun c => c == '(') with
        | none => (acc, some .missingOpenParen)
        | some opi =>
          let inv0 : Invocation := ⟨name, lineCurr', 0, []⟩
          let r := scanArgsLoop (s'.drop (opi + 1)) lineCurr' false 0 [] inv0
          let acc' := match r.1 with
            | some inv => acc ++ [inv]
            | none => acc
          if r.2.2 = [] then (acc', none)
          else scanInvocationsTextToken fuel names s' r.2.1 acc'

/-- The token loop of `ScanInvocations` (cmacro.go): run the scanner; on an
error token return the accumulated invocations, treating end-of-input as
success (`nil` error); on a text token run the invocation extractor on the
token's data with the token's start line; comment tokens are skipped. -/
def ScanInvocationsLoop :
    Nat → Scanner → List (List Char) → List Invocation →
    List Invocation × Option CErr
  | 0, _, _, acc => (acc, none)
  | fuel + 1, s, names, acc =>
    let r := Next s
    match r.1 with
    | .errorToken =>
      match r.2.err with
      | some .eofError => (acc, none)
      | some e => (acc, some (.scanErr e))
      | none => (acc, none)
    | .commentToken => ScanInvocationsLoop fuel r.2 names acc
    | .textToken =>
      let t := scanInvocationsTextToken (r.2.buf.length + 1) names r.2.buf r.2.tokLine acc
      match t.2 with
      | some e => (t.1, some e)
      | none => ScanInvocationsLoop fuel r.2 names t.1

/-- Model of `ScanInvocationsString`: scan a whole string for invocations of the
target names, from a fresh scanner. -/
def ScanInvocationsString (input : List Char) (names : List (List Char)) :
    List Invocation × Option CErr :=
  ScanInvocationsLoop (input.length + 1) (NewScanner input) names []

end CM

open Ctext CM

/-- C1 (counterexample): scanning `/* a /* b */ c */` does not yield a
Comment token `/* a /* b */` followed by Text ` c */` — the first `*/` does
not close the block comment. -/
theorem c1_counterexample :
    (scanTokens ("/* a /* b */ c */".toList)).1.map Token.Data ≠
      ["/* a /* b */".toList, " c */".toList] := by decide

/-- C1 (amended): scanning `/* a /* b */ c */` yields exactly one Comment
token whose data is the entire input, followed by the end-of-input
terminal condition: the inner `/*` increments the block-comment depth
counter to 2, so block comments nest and only the second `*/` closes the
token. -/
theorem c1_block_comments_nest :
    (scanTokens ("/* a /* b */ c */".toList)).1 =
      [⟨.commentToken, 1, 1, "/* a /* b */ c */".toList⟩] ∧
    (scanTokens ("/* a /* b */ c */".toList)).2.err = some .eofError := by decide

/-- C2 (counterexample): in `x = "a /* b */";` the `/*` inside the
well-formed string literal does start a comment token: the scan emits a
Comment token (data `x = "a /* b */`) followed by a Text token `";`. -/
theorem c2_counterexample :
    (scanTokens ("x = \"a /* b */\";".toList)).1.map (fun t => (t.typ, t.Data)) =
      [(.commentToken, "x = \"a /* b */".toList),
       (.textToken, "\";".toList)] := by decide

/-- C2 (amended): a `//` inside a well-formed string literal does not start
a comment token: the input `x = "a // b";` yields a single Text token
containing the whole input and no Comment token. -/
theorem c2_string_literal_line_comment_immunity :
    (scanTokens ("x = \"a // b\";".toList)).1 =
      [⟨.textToken, 1, 1, "x = \"a // b\";".toList⟩] ∧
    (scanTokens ("x = \"a // b\";".toList)).2.err = some .eofError := by decide

/-- C5: scanning `int x; // c\ny;` yields exactly three tokens: Text
`int x; `, Comment `// c\n` (including the terminating newline), and Text
`y;`. -/
theorem c5_line_comment_boundary :
    (scanTokens ("int x; // c\ny;".toList)).1 =
      [⟨.textToken, 1, 1, "int x; ".toList⟩,
       ⟨.commentToken, 1, 8, "// c\n".toList⟩,
       ⟨.textToken, 2, 1, "y;".toList⟩] ∧
    (scanTokens ("int x; // c\ny;".toList)).2.err = some .eofError := by decide

/-- C6: on the input `/* never closed`, the first call to `Next` returns an
error token whose error is the `unexpected end of multi-line comment`
condition, and no token at all (in particular no Comment token) is
emitted for the unterminated comment. -/
theorem c6_unterminated_block_comment :
    (Next (NewScanner ("/* never closed".toList))).1 = .errorToken ∧
    (Next (NewScanner ("/* never closed".toList))).2.err =
      some .unterminatedComment ∧
    (scanTokens ("/* never closed".toList)).1 = [] := by decide

/-- C9: the occurrence of `F` in `#define F(a,b) (a+b)` is recognized by
`isMacroDefinition` (a `define` preceded by `#` precedes it, skipping
spaces), so `ScanInvocations` with target name `F` emits zero invocations
and returns no error. -/
theorem c9_definition_exclusion :
    isMacroDefinition ("#define F(a,b) (a+b)".toList) 8 = true ∧
    ScanInvocationsString ("#define F(a,b) (a+b)".toList) ["F".toList] =
      ([], none) := by decide

/-- C4 (code bug, evaluation): on `A(\n1);\nA(2);` with target name `A`,
the second invocation — which follows a multi-line invocation and whose
name occurs on source line 3 (two newlines precede it) — is reported with
`Start = 4` and `End = 4`: the newlines of the first invocation's argument
span are counted twice. -/
theorem c4_line_double_count :
    ScanInvocationsString ("A(\n1);\nA(2);".toList) ["A".toList] =
      ([⟨"A".toList, 1, 2, ["1".toList]⟩,
        ⟨"A".toList, 4, 4, ["2".toList]⟩], none) ∧
    (("A(\n1);\nA(2);".toList).take 7).count '\n' = 2 := by decide

/-- C8 (counterexample): the input `f( )` with target name `f` yields zero
invocations, not one invocation with zero arguments — without a
terminating `;` no invocation is ever emitted. -/
theorem c8_counterexample :
    (ScanInvocationsString ("f( )".toList) ["f".toList]).1 = [] ∧
    ¬ ((ScanInvocationsString ("f( )".toList) ["f".toList]).1.length = 1) := by
  decide

/-- Helper: a scanner whose sticky error is set returns the same error on
every subsequent call, leaving the state untouched, so `runScan` collects
nothing from it. -/
theorem runScan_err (fuel : Nat) (s : Scanner) (e : ScanError) (h : s.err = some e) :
    runScan fuel s = ([], s) := by
  cases fuel with
  | zero => rfl
  | succ n => simp [runScan, Next, h]

/-- C7: (1) at end-of-input with pending buffered bytes and no open block
comment, the scan loop flushes the buffer as one final Text token and
records the end-of-input condition for the next call; (2) once the
scanner's error is set, every call to `Next` returns `ErrorToken` with the
state (hence the error and the remaining input) unchanged; (3) the
`ScanInvocations` loop treats the end-of-input condition as success,
returning the accumulated invocations and a nil error. -/
theorem c7_eof_flush_and_sticky :
    (∀ (line col tl tc : Int) (buf : List Char) (inSL inStr : Bool),
      buf ≠ [] →
      nextLoop [] line col tl tc buf inSL 0 inStr =
        (.textToken, ⟨[], line, col, tl, tc, buf, some .eofError⟩)) ∧
    (∀ (s : Scanner) (e : ScanError), s.err = some e → Next s = (.errorToken, s)) ∧
    (∀ (fuel : Nat) (s : Scanner) (names : List (List Char)) (acc : List Invocation),
      s.err = some .eofError →
      ScanInvocationsLoop (fuel + 1) s names acc = (acc, none)) := by
  refine ⟨fun line col tl tc buf inSL inStr hb => ?_,
          fun s e h => ?_, fun fuel s names acc h => ?_⟩
  · simp [nextLoop, hb]
  · simp [Next, h]
  · simp [ScanInvocationsLoop, Next, h]

/-- Witness for C7 at concrete inputs: a one-byte buffer at end-of-input is
flushed as a Text token; a scanner with the end-of-input error set returns
`ErrorToken` unchanged; the invocation loop returns success on it. -/
theorem c7_eof_flush_and_sticky_witness :
    nextLoop [] 1 2 0 0 ['x'] false 0 false =
      (.textToken, ⟨[], 1, 2, 0, 0, ['x'], some .eofError⟩) ∧
    Next ⟨[], 1, 3, 0, 0, [], some .eofError⟩ =
      (.errorToken, ⟨[], 1, 3, 0, 0, [], some .eofError⟩) ∧
    ScanInvocationsLoop 1 ⟨[], 1, 3, 0, 0, [], some .eofError⟩ [] [] = ([], none) :=
  ⟨c7_eof_flush_and_sticky.1 1 2 0 0 ['x'] false false (by decide),
   c7_eof_flush_and_sticky.2.1 _ .eofError rfl,
   c7_eof_flush_and_sticky.2.2 0 _ [] [] rfl⟩

set_option maxHeartbeats 2000000 in
/-- Helper for C10: whenever the scan loop returns a non-error token, the
token buffer it returns is non-empty: the mid-stream Text return requires a
non-empty buffer, the end-of-input flush requires buffered data, and both
Comment returns append the closing character. -/
theorem nextLoop_buf_ne_nil (inp : List Char) :
    ∀ (line col tl tc : Int) (buf : List Char) (inSL : Bool) (ml : Nat) (inStr : Bool),
      (nextLoop inp line col tl tc buf inSL ml inStr).1 ≠ TokenType.errorToken →
      (nextLoop inp line col tl tc buf inSL ml inStr).2.buf ≠ [] := by
  induction inp with
  | nil =>
    intro line col tl tc buf inSL ml inStr
    simp only [nextLoop]
    split
    · split <;> simp_all
    · simp_all
  | cons c rest ih =>
    intro line col tl tc buf inSL ml inStr
    simp only [nextLoop]
    repeat' split
    all_goals first
      | exact ih _ _ _ _ _ _ _ _
      | (intro h; simp_all)

/-- Helper for C10, lifted to `Next`. -/
theorem Next_buf_ne_nil (s : Scanner) :
    (Next s).1 ≠ TokenType.errorToken → (Next s).2.buf ≠ [] := by
  cases h : s.err with
  | some e => simp [Next, h]
  | none =>
    simp only [Next, h]
    exact nextLoop_buf_ne_nil _ _ _ _ _ _ _ _ _

/-- C10: every token the scanner emits, whether Comment or Text, has
non-empty data. -/
theorem c10_tokens_nonempty (fuel : Nat) :
    ∀ (s : Scanner) (t : Token), t ∈ (runScan fuel s).1 → t.Data ≠ [] := by
  induction fuel with
  | zero => intro s t ht; simp [runScan] at ht
  | succ n ih =>
    intro s t ht
    simp only [runScan] at ht
    split at ht
    · simp at ht
    · rcases List.mem_cons.mp ht with h | h
      · subst h
        exact Next_buf_ne_nil s (by assumption)
      · exact ih _ _ h

/-- Witness for C10: the Text token emitted for the input `x;` has
non-empty data. -/
theorem c10_tokens_nonempty_witness :
    (⟨.textToken, 1, 1, "x;".toList⟩ : Token).Data ≠ [] :=
  c10_tokens_nonempty 3 (NewScanner ("x;".toList)) _ (by decide)

/-- Helper: `crStrip` keeps any character other than `\r`. -/
theorem crStrip_cons_ne (c : Char) (l : List Char) (hc : c ≠ '\r') :
    crStrip (c :: l) = c :: crStrip l := by
  simp [crStrip, List.filter_cons, hc]

/-- Helper: `crStrip` removes a leading `\r`. -/
theorem crStrip_cr (l : List Char) : crStrip ('\r' :: l) = crStrip l := by
  simp [crStrip, List.filter_cons]

/-- Concatenation invariant of one scan-loop run started with buffer `buf0`
and remaining input `inp`: a non-error outcome carries all consumed
characters (minus `\r`) in its buffer, with either no terminal condition
recorded or end-of-input with the input exhausted; an error outcome with
the end-of-input condition can only arise when nothing (up to `\r`s) was
pending. -/
def ConcatInv (buf0 inp : List Char) (r : TokenType × Scanner) : Prop :=
  (r.1 ≠ TokenType.errorToken →
    r.2.buf ++ crStrip r.2.input = buf0 ++ crStrip inp ∧
    (r.2.err = none ∨ (r.2.err = some ScanError.eofError ∧ r.2.input = []))) ∧
  (r.1 = TokenType.errorToken → r.2.err = some ScanError.eofError →
    buf0 ++ crStrip inp = [] ∧ r.2.input = [])

/-- Helper: consuming one non-`\r` character into the buffer preserves the
concatenation invariant. -/
theorem concatInv_cons {buf rest : List Char} {r : TokenType × Scanner} (c : Char)
    (hc : c ≠ '\r') (h : ConcatInv (buf ++ [c]) rest r) : ConcatInv buf (c :: rest) r := by
  unfold ConcatInv at h ⊢
  rw [crStrip_cons_ne c rest hc]
  constructor
  · intro hne
    obtain ⟨he, herr⟩ := h.1 hne
    exact ⟨by rw [he]; simp, herr⟩
  · intro h1 h2
    obtain ⟨he, _⟩ := h.2 h1 h2
    exact absurd he (by simp)

/-- Helper: discarding a `\r` preserves the concatenation invariant. -/
theorem concatInv_cr {buf rest : List Char} {r : TokenType × Scanner}
    (h : ConcatInv buf rest r) : ConcatInv buf ('\r' :: rest) r := by
  unfold ConcatInv at h ⊢
  rw [crStrip_cr]
  exact h

/-- Helper: the mid-stream Text return (which leaves the peeked character
in the input) satisfies the concatenation invariant. -/
theorem concatInv_text_mid (buf rest : List Char) (line col tl tc : Int) (c : Char) :
    ConcatInv buf (c :: rest)
      (.textToken, ⟨c :: rest, line, col, tl, tc, buf, none⟩) := by
  unfold ConcatInv
  exact ⟨fun _ => ⟨rfl, Or.inl rfl⟩, fun h _ => nomatch h⟩

/-- Helper: both Comment returns (which consume the closing character)
satisfy the concatenation invariant. -/
theorem concatInv_comment (buf rest : List Char) (line col tl tc : Int) (c : Char)
    (hc : c ≠ '\r') :
    ConcatInv buf (c :: rest)
      (.commentToken, ⟨rest, line, col, tl, tc, buf ++ [c], none⟩) := by
  unfold ConcatInv
  refine ⟨fun _ => ⟨?_, Or.inl rfl⟩, fun h _ => nomatch h⟩
  rw [crStrip_cons_ne c rest hc]
  simp

set_option maxHeartbeats 2000000 in
/-- Helper for C3: every run of the scan loop satisfies the concatenation
invariant. -/
theorem nextLoop_concat (inp : List Char) :
    ∀ (line col tl tc : Int) (buf : List Char) (inSL : Bool) (ml : Nat) (inStr : Bool),
      ConcatInv buf inp (nextLoop inp line col tl tc buf inSL ml inStr) := by
  induction inp with
  | nil =>
    intro line col tl tc buf inSL ml inStr
    simp only [nextLoop]
    split
    · split
      · exact ⟨fun h => absurd rfl h, fun _ h2 => nomatch h2⟩
      · exact ⟨fun _ => ⟨rfl, Or.inr ⟨rfl, rfl⟩⟩, fun h _ => nomatch h⟩
    · rename_i hb
      refine ⟨fun h => absurd rfl h, fun _ _ => ⟨?_, rfl⟩⟩
      simp only [not_not] at hb
      simp [hb, crStrip]
  | cons c rest ih =>
    intro line col tl tc buf inSL ml inStr
    simp only [nextLoop]
    repeat' split
    all_goals try subst c
    all_goals first
      | exact concatInv_cr (ih _ _ _ _ _ _ _ _)
      | exact concatInv_cons _ (by decide) (ih _ _ _ _ _ _ _ _)
      | exact concatInv_cons _ (by simp_all) (ih _ _ _ _ _ _ _ _)
      | exact concatInv_text_mid _ _ _ _ _ _ _
      | exact concatInv_comment _ _ _ _ _ _ _ (by decide)

/-- Helper for C3: the concatenation invariant for a full `Next` call on an
error-free scanner, with an empty starting buffer. -/
theorem Next_concat (s : Scanner) (h : s.err = none) :
    ConcatInv [] s.input (Next s) := by
  simp only [Next, h]
  exact nextLoop_concat _ _ _ _ _ _ _ _ _

/-- Helper for C3: if a run of the scanner from an error-free state ends in
the end-of-input condition, the concatenation of all emitted token data is
the remaining input with carriage returns removed. -/
theorem runScan_concat (fuel : Nat) :
    ∀ (s : Scanner), s.err = none →
      (runScan fuel s).2.err = some ScanError.eofError →
      ((runScan fuel s).1.map Token.Data).flatten = crStrip s.input := by
  induction fuel with
  | zero =>
    intro s h0 h1
    simp only [runScan] at h1
    rw [h0] at h1
    cases h1
  | succ n ih =>
    intro s h0 h1
    have hc := Next_concat s h0
    by_cases he : (Next s).1 = TokenType.errorToken
    · simp only [runScan, if_pos he] at h1 ⊢
      have := (hc.2 he h1).1
      simpa using this.symm
    · simp only [runScan, if_neg he] at h1 ⊢
      obtain ⟨heq, herr⟩ := hc.1 he
      rcases herr with hnone | ⟨heof, hinp⟩
      · have hrec := ih (Next s).2 hnone h1
        simp only [List.map_cons, List.flatten_cons]
        rw [hrec, heq]
        simp
      · rw [runScan_err n _ _ heof]
        rw [hinp] at heq
        simp only [List.map_cons, List.map_nil, List.flatten_cons, List.flatten_nil,
          List.append_nil]
        simpa [crStrip] using heq

/-- C3 (counterexample): on the input `/*a` (an unterminated block
comment) the scan emits no tokens at all, so the concatenation of the
emitted token data is empty and differs from the CR-stripped input. -/
theorem c3_counterexample :
    ((scanTokens ("/*a".toList)).1.map Token.Data).flatten ≠ crStrip ("/*a".toList) := by
  decide

/-- C3 (amended): for any input and any fuel, if the scan terminates in the
end-of-input condition (rather than the unterminated-block-comment error),
then concatenating the data of every emitted token in order equals the
input with all `\r` bytes removed. -/
theorem c3_round_trip (fuel : Nat) (input : List Char)
    (h : (runScan fuel (NewScanner input)).2.err = some ScanError.eofError) :
    ((runScan fuel (NewScanner input)).1.map Token.Data).flatten = crStrip input :=
  runScan_concat fuel (NewScanner input) rfl h

/-- Witness for C3 at a concrete input containing a `\r`: the scan of
`a\r\nb` terminates at end-of-input and the emitted data concatenates to
the CR-stripped input. -/
theorem c3_round_trip_witness :
    ((runScan 6 (NewScanner ("a\r\nb".toList))).1.map Token.Data).flatten =
      crStrip ("a\r\nb".toList) :=
  c3_round_trip 6 ("a\r\nb".toList) (by decide)

/-- Helper: `trimSpace` is right-trimming composed with left-trimming,
expressed through `List.rdropWhile`. -/
theorem trimSpace_eq_rdrop (l : List Char) :
    trimSpace l = List.rdropWhile goIsSpace (List.dropWhile goIsSpace l) := rfl

/-- Helper: if dropping a leading run of `p`-characters leaves the list
unchanged with head `x`, then `x` does not satisfy `p`. -/
theorem dropWhile_cons_self {p : Char → Bool} {x : Char} {l : List Char}
    (h : List.dropWhile p (x :: l) = x :: l) : p x = false := by
  by_cases hx : p x = true
  · rw [List.dropWhile_cons, if_pos hx] at h
    have hlen : (List.dropWhile p l).length ≤ l.length :=
      List.Sublist.length_le (List.dropWhile_sublist p)
    rw [h] at hlen
    simp at hlen
  · simpa using hx

/-- Helper: a trimmed list has no leading whitespace left to drop. -/
theorem dropWhile_trimSpace (l : List Char) :
    List.dropWhile goIsSpace (trimSpace l) = trimSpace l := by
  rw [trimSpace_eq_rdrop]
  rcases hB : List.rdropWhile goIsSpace (List.dropWhile goIsSpace l) with _ | ⟨x, xs⟩
  · simp
  · obtain ⟨t, ht⟩ := List.rdropWhile_prefix goIsSpace (List.dropWhile goIsSpace l)
    rw [hB] at ht
    have hA := List.dropWhile_idempotent goIsSpace l
    rw [← ht, List.cons_append] at hA
    have hx := dropWhile_cons_self hA
    rw [List.dropWhile_cons, if_neg (by simp [hx])]

/-- Helper: `trimSpace` is idempotent. -/
theorem trimSpace_idem (l : List Char) : trimSpace (trimSpace l) = trimSpace l := by
  rw [trimSpace_eq_rdrop (trimSpace l), dropWhile_trimSpace l, trimSpace_eq_rdrop l,
    List.rdropWhile_idempotent]

/-- An argument string as stored in an `Invocation`: already trimmed of
leading and trailing whitespace, and non-empty. -/
def Trimmed (a : List Char) : Prop := trimSpace a = a ∧ a ≠ []

/-- Helper: when `parseInvocationArg` reports an argument, it is the
trimmed buffer and is non-empty. -/
theorem parseInvocationArg_some {buf arg buf' : List Char}
    (h : parseInvocationArg buf = (some arg, buf')) :
    arg = trimSpace buf ∧ arg ≠ [] := by
  simp only [parseInvocationArg] at h
  split at h
  · rename_i hne
    simp only [Prod.mk.injEq, Option.some.injEq] at h
    obtain ⟨h1, -⟩ := h
    subst h1
    exact ⟨rfl, hne⟩
  · simp at h

/-- Helper: flushing the pending-argument buffer preserves the property
that every stored argument is trimmed and non-empty. -/
theorem flushArg_inv {buf : List Char} {inv : Invocation}
    (h : ∀ a ∈ inv.Args, Trimmed a) :
    ∀ a ∈ (flushArg buf inv).2.Args, Trimmed a := by
  unfold flushArg
  rcases hp : parseInvocationArg buf with ⟨o, b⟩
  cases o with
  | none => simpa using h
  | some arg =>
    obtain ⟨ha, hne⟩ := parseInvocationArg_some hp
    intro a hmem
    simp only [List.mem_append, List.mem_singleton] at hmem
    rcases hmem with h1 | h1
    · exact h a h1
    · subst h1
      have harg : trimSpace arg = arg := by rw [ha]; exact trimSpace_idem buf
      rw [harg]
      exact ⟨harg, hne⟩

/-- Helper for C8: every invocation emitted by the argument-parse loop has
only trimmed, non-empty argument strings, provided the invocation under
construction does. -/
theorem scanArgsLoop_inv (chars : List Char) :
    ∀ (lineCurr : Int) (inStr : Bool) (paren : Nat) (buf : List Char) (inv : Invocation),
      (∀ a ∈ inv.Args, Trimmed a) →
      ∀ i, (scanArgsLoop chars lineCurr inStr paren buf inv).1 = some i →
        ∀ a ∈ i.Args, Trimmed a := by
  induction chars with
  | nil =>
    intro lineCurr inStr paren buf inv _ i hi
    cases hi
  | cons c rest ih =>
    intro lineCurr inStr paren buf inv hinv i hi
    simp only [scanArgsLoop] at hi
    repeat' split at hi
    all_goals first
      | exact ih _ _ _ _ _ hinv i hi
      | exact ih _ _ _ _ _ (flushArg_inv hinv) i hi
      | (cases hi; simpa using hinv)

/-- Helper for C8: the outer name-search loop preserves the trimmed-args
property of every accumulated invocation. -/
theorem scanInvocationsTextToken_inv (fuel : Nat) :
    ∀ (names : List (List Char)) (s : List Char) (lineCurr : Int) (acc : List Invocation),
      (∀ inv ∈ acc, ∀ a ∈ inv.Args, Trimmed a) →
      ∀ inv ∈ (scanInvocationsTextToken fuel names s lineCurr acc).1,
        ∀ a ∈ inv.Args, Trimmed a := by
  induction fuel with
  | zero =>
    intro names s lineCurr acc hacc inv hmem
    exact hacc inv hmem
  | succ n ih =>
    intro names s lineCurr acc hacc inv hmem
    simp only [scanInvocationsTextToken] at hmem
    repeat' split at hmem
    all_goals try exact hacc inv hmem
    all_goals try exact ih _ _ _ _ hacc inv hmem
    all_goals rename_i heq
    all_goals first
      | (rcases List.mem_append.mp hmem with h | h
         · exact hacc inv h
         · rw [List.mem_singleton] at h
           subst h
           exact scanArgsLoop_inv _ _ _ _ _ _ (by simp) _ heq)
      | (refine ih _ _ _ _ (fun v hv => ?_) inv hmem
         rcases List.mem_append.mp hv with h | h
         · exact hacc v h
         · rw [List.mem_singleton] at h
           subst h
           exact scanArgsLoop_inv _ _ _ _ _ _ (by simp) _ heq)

/-- Helper for C8: the scanner-token loop of `ScanInvocations` preserves
the trimmed-args property of every accumulated invocation. -/
theorem ScanInvocationsLoop_inv (fuel : Nat) :
    ∀ (s : Scanner) (names : List (List Char)) (acc : List Invocation),
      (∀ inv ∈ acc, ∀ a ∈ inv.Args, Trimmed a) →
      ∀ inv ∈ (ScanInvocationsLoop fuel s names acc).1,
        ∀ a ∈ inv.Args, Trimmed a := by
  induction fuel with
  | zero =>
    intro s names acc hacc inv hmem
    exact hacc inv hmem
  | succ n ih =>
    intro s names acc hacc inv hmem
    simp only [ScanInvocationsLoop] at hmem
    repeat' split at hmem
    all_goals first
      | exact hacc inv hmem
      | exact ih _ _ _ hacc inv hmem
      | exact ih _ _ _ (scanInvocationsTextToken_inv _ _ _ _ _ hacc) inv hmem
      | exact scanInvocationsTextToken_inv _ _ _ _ _ hacc inv hmem

/-- C8 (amended): every argument string stored in an invocation emitted by
`ScanInvocations` is trimmed of leading and trailing whitespace and is
non-empty (an empty trimmed buffer is never appended); and the input
`f( );` with target name `f` yields exactly one invocation with zero
arguments — the example input needs its terminating `;` for the invocation
to be emitted at all. -/
theorem c8_args_trimmed :
    (∀ (input : List Char) (names : List (List Char)) (inv : Invocation),
      inv ∈ (ScanInvocationsString input names).1 →
      ∀ a ∈ inv.Args, trimSpace a = a ∧ a ≠ []) ∧
    ScanInvocationsString ("f( );".toList) ["f".toList] =
      ([⟨"f".toList, 1, 1, []⟩], none) := by
  constructor
  · intro input names inv hmem a ha
    exact ScanInvocationsLoop_inv _ _ _ _ (by simp) inv hmem a ha
  · decide

/-- Witness for C8 at a concrete input: the single argument `x` of the
invocation extracted from `F( x );` is trimmed and non-empty. -/
theorem c8_args_trimmed_witness :
    trimSpace ("x".toList) = "x".toList ∧ "x".toList ≠ [] :=
  c8_args_trimmed.1 ("F( x );".toList) ["F".toList]
    ⟨"F".toList, 1, 1, ["x".toList]⟩ (by decide) ("x".toList) (by decide)
